import Mathlib

/-!
Shallow embedding of the merge/reconciliation engine of
linkedin-contentful-sync (Go) and the pieces of its orchestrator that the
specified properties talk about:

* `dedupeKey` and `Merge` from `internal/sync/merge.go`;
* the force/replace branch and the build-log rebuild from `cmd/scrape.go`;
* the record types `linkedin.Recommendation` and `contentful.Testimonial`.

Go strings are modelled as Lean `String`s (lists of characters); the standard
library calls `strings.TrimSpace` and `strings.ToLower` are modelled below.
-/

/-- Character test of Go's `unicode.IsSpace`: the Latin-1 space characters
'\t', '\n', '\v', '\f', '\r', ' ', U+0085, U+00A0 together with the
Unicode White_Space code points above Latin-1. -/
def goIsSpace (c : Char) : Bool :=
  c == ' ' || c == '\t' || c == '\n' || c.toNat == 0x0b || c.toNat == 0x0c ||
  c == '\r' || c.toNat == 0x85 || c.toNat == 0xa0 ||
  c.toNat == 0x1680 || (0x2000 ≤ c.toNat && c.toNat ≤ 0x200a) ||
  c.toNat == 0x2028 || c.toNat == 0x2029 || c.toNat == 0x202f ||
  c.toNat == 0x205f || c.toNat == 0x3000

/-- Go's `strings.TrimSpace`: remove all leading and trailing characters
satisfying `unicode.IsSpace`. -/
def goTrimSpace (s : String) : String :=
  ⟨((s.data.dropWhile goIsSpace).reverse.dropWhile goIsSpace).reverse⟩

/-- Case mapping of a single character as applied by Go's `strings.ToLower`,
restricted to the ASCII range: `A`–`Z` map to `a`–`z`. (Go applies Unicode
simple lowercasing; outside ASCII this model leaves characters unchanged,
which agrees with Go on all inputs evaluated in this development, and the
properties proved about it are congruence properties that hold for any
character mapping.) -/
def goToLowerChar (c : Char) : Char :=
  if 'A' ≤ c ∧ c ≤ 'Z' then Char.ofNat (c.toNat + 32) else c

/-- Go's `strings.ToLower`, character by character. -/
def goToLower (s : String) : String :=
  ⟨s.data.map goToLowerChar⟩

/-- Record scraped from LinkedIn (`internal/linkedin`). Modelled from the
spec: the struct file currently under the repository snapshot is a stale
five-field version without the profile link; the `linkedInURL` field
(the spec's `profile_reference`) is reconstructed from the spec's record
model and from its uses in `scraper.go` and `cmd/scrape.go`. -/
structure Recommendation where
  name : String
  role : String
  company : String
  quote : String
  avatarURL : String
  linkedInURL : String
deriving DecidableEq, Repr

/-- Stored testimonial (`internal/contentful`), matching the JSON shape of
the Contentful siteSection content field. -/
structure Testimonial where
  name : String
  role : String
  company : String
  quote : String
  avatarURL : String
  linkedInURL : String
deriving DecidableEq, Repr

/-- `dedupeKey` from `internal/sync/merge.go`: lowercased, trimmed name and
company joined by a pipe. -/
def dedupeKey (name company : String) : String :=
  goToLower (goTrimSpace name) ++ "|" ++ goToLower (goTrimSpace company)

/-- Identity key of a stored testimonial, as computed by `Merge` when it
indexes the existing collection. -/
def testKey (t : Testimonial) : String :=
  dedupeKey t.name t.company

/-- Identity key of a scraped record, as computed by `Merge` for each
incoming record. -/
def recKey (r : Recommendation) : String :=
  dedupeKey r.name r.company

/-- Conversion applied by `Merge` when it appends a scraped record: the Go
struct literal sets name, role, company, quote and avatar and omits
`LinkedInURL`, which therefore gets the zero value `""`. -/
def toStored (rec : Recommendation) : Testimonial :=
  { name := rec.name, role := rec.role, company := rec.company,
    quote := rec.quote, avatarURL := rec.avatarURL, linkedInURL := "" }

/-- Loop of `Merge` over the scraped records: `seen` is the running key set
(the Go `map[string]bool`, modelled as the list of keys marked true),
`result` the accumulated output slice and `n` the running `newCount`. -/
def mergeLoop : List String → List Testimonial → Nat → List Recommendation →
    List Testimonial × Nat
  | _, result, n, [] => (result, n)
  | seen, result, n, rec :: rest =>
    let key := dedupeKey rec.name rec.company
    if key ∈ seen then
      mergeLoop seen result n rest
    else
      mergeLoop (key :: seen) (result ++ [toStored rec]) (n + 1) rest

/-- `Merge` from `internal/sync/merge.go`: index the existing testimonials
by key, copy them, then append each scraped record whose key has not been
seen, counting the additions. -/
def Merge (existing : List Testimonial) (scraped : List Recommendation) :
    List Testimonial × Nat :=
  mergeLoop (existing.map testKey) existing 0 scraped

/-- Conversion applied by the force branch of `cmd/scrape.go` when it rebuilds
the collection: unlike `toStored`, its struct literal also copies
`LinkedInURL` from the scraped record. -/
def toStoredForce (rec : Recommendation) : Testimonial :=
  { name := rec.name, role := rec.role, company := rec.company,
    quote := rec.quote, avatarURL := rec.avatarURL,
    linkedInURL := rec.linkedInURL }

/-- Loop of the force branch in `cmd/scrape.go`: `for i, rec := range scraped`
appends index `i` to `newIndices` and the converted record to `merged`,
with no key lookup of any kind. -/
def forceLoop : Nat → List Testimonial → List Nat → List Recommendation →
    List Testimonial × List Nat
  | _, merged, idxs, [] => (merged, idxs)
  | i, merged, idxs, rec :: rest =>
      forceLoop (i + 1) (merged ++ [toStoredForce rec]) (idxs ++ [i]) rest

/-- Force/replace mode of `cmd/scrape.go` (`--force`): discard the existing
collection and rebuild `merged` and `newIndices` from the scraped records
alone. -/
def forceReplace (scraped : List Recommendation) : List Testimonial × List Nat :=
  forceLoop 0 [] [] scraped

/-- Entry of the shared build log (`go-service-kit/contentful`
`BuildLogEntry`), as populated and filtered by `cmd/scrape.go`. -/
structure BuildLogEntry where
  service : String
  timestamp : String
  triggeredBy : String
  forceUpdate : Bool
  translationUsed : Bool
  newAdded : Nat
  totalAfterSync : Nat
  status : String
deriving DecidableEq, Repr

/-- Service name constant of `cmd/scrape.go`. -/
def serviceName : String := "linkedin-contentful-sync"

/-- Build-log rebuild of `cmd/scrape.go` step 5: one pass splits the fetched
entries into this service's own entries and everybody else's (both in fetch
order, i.e. the two filters); when the service already has three or more
entries only the last two are kept; the result is the other entries, then the
kept own entries, then the new entry. -/
def rebuildBuildLog (entries : List BuildLogEntry) (logEntry : BuildLogEntry) :
    List BuildLogEntry :=
  let ownEntries := entries.filter (fun e => e.service == serviceName)
  let otherEntries := entries.filter (fun e => !(e.service == serviceName))
  let own := if ownEntries.length ≥ 3 then ownEntries.drop (ownEntries.length - 2)
    else ownEntries
  otherEntries ++ (own ++ [logEntry])

/-- Sample stored testimonial used in concrete instances. -/
def tJane : Testimonial :=
  { name := "Jane", role := "CTO", company := "Acme", quote := "great",
    avatarURL := "", linkedInURL := "" }

/-- Sample scraped record with an identity distinct from `tJane`. -/
def recBob : Recommendation :=
  { name := "Bob", role := "CEO", company := "Beta", quote := "nice",
    avatarURL := "", linkedInURL := "" }

/-- First of two sample scraped records sharing one identity key. -/
def recX1 : Recommendation :=
  { name := "X", role := "role1", company := "Y", quote := "q1",
    avatarURL := "", linkedInURL := "" }

/-- Second of two sample scraped records sharing one identity key: same name
and company as `recX1`, different payload. -/
def recX2 : Recommendation :=
  { name := "X", role := "role2", company := "Y", quote := "q2",
    avatarURL := "av2", linkedInURL := "li2" }

/-- Sample build-log entry of another service. -/
def logOther : BuildLogEntry :=
  { service := "portfolio-web", timestamp := "t1", triggeredBy := "local",
    forceUpdate := false, translationUsed := false, newAdded := 0,
    totalAfterSync := 0, status := "success" }

/-- Sample prior build-log entry of this service. -/
def logOwn : BuildLogEntry :=
  { service := "linkedin-contentful-sync", timestamp := "t2",
    triggeredBy := "local", forceUpdate := false, translationUsed := false,
    newAdded := 1, totalAfterSync := 1, status := "success" }

/-- Sample new build-log entry recorded by this run. -/
def logNew : BuildLogEntry :=
  { service := "linkedin-contentful-sync", timestamp := "t3",
    triggeredBy := "github-actions", forceUpdate := true,
    translationUsed := false, newAdded := 2, totalAfterSync := 3,
    status := "success" }

lemma mergeLoop_nil (seen : List String) (r : List Testimonial) (n : Nat) :
    mergeLoop seen r n [] = (r, n) := rfl

lemma mergeLoop_cons_mem {seen : List String} {rec : Recommendation}
    (r : List Testimonial) (n : Nat) (rest : List Recommendation)
    (h : dedupeKey rec.name rec.company ∈ seen) :
    mergeLoop seen r n (rec :: rest) = mergeLoop seen r n rest := by
  simp [mergeLoop, h]

lemma mergeLoop_cons_not_mem {seen : List String} {rec : Recommendation}
    (r : List Testimonial) (n : Nat) (rest : List Recommendation)
    (h : dedupeKey rec.name rec.company ∉ seen) :
    mergeLoop seen r n (rec :: rest) =
      mergeLoop (dedupeKey rec.name rec.company :: seen)
        (r ++ [toStored rec]) (n + 1) rest := by
  simp [mergeLoop, h]

/-- The running count only grows, and the output list length grows with it:
whatever state the loop starts from, output length plus starting count equals
starting length plus output count. -/
lemma mergeLoop_length : ∀ (l : List Recommendation) (seen : List String)
    (r : List Testimonial) (n : Nat),
    (mergeLoop seen r n l).1.length + n = r.length + (mergeLoop seen r n l).2 := by
  intro l
  induction l with
  | nil => intro seen r n; simp [mergeLoop_nil]
  | cons rec rest ih =>
    intro seen r n
    by_cases h : dedupeKey rec.name rec.company ∈ seen
    · rw [mergeLoop_cons_mem _ _ _ h]; exact ih seen r n
    · rw [mergeLoop_cons_not_mem _ _ _ h]
      have := ih (dedupeKey rec.name rec.company :: seen) (r ++ [toStored rec]) (n + 1)
      simp only [List.length_append, List.length_singleton] at this
      omega

/-- The loop only ever appends to its accumulated result. -/
lemma mergeLoop_result_append : ∀ (l : List Recommendation) (seen : List String)
    (r : List Testimonial) (n : Nat),
    ∃ t, (mergeLoop seen r n l).1 = r ++ t := by
  intro l
  induction l with
  | nil => intro seen r n; exact ⟨[], by simp [mergeLoop_nil]⟩
  | cons rec rest ih =>
    intro seen r n
    by_cases h : dedupeKey rec.name rec.company ∈ seen
    · rw [mergeLoop_cons_mem _ _ _ h]; exact ih seen r n
    · rw [mergeLoop_cons_not_mem _ _ _ h]
      obtain ⟨t, ht⟩ := ih (dedupeKey rec.name rec.company :: seen)
        (r ++ [toStored rec]) (n + 1)
      exact ⟨[toStored rec] ++ t, by rw [ht, List.append_assoc]⟩

/-- Membership in the accumulated keys is stable under running the loop. -/
lemma mergeLoop_key_mono (l : List Recommendation) (seen : List String)
    (r : List Testimonial) (n : Nat) (k : String) (hk : k ∈ r.map testKey) :
    k ∈ (mergeLoop seen r n l).1.map testKey := by
  obtain ⟨t, ht⟩ := mergeLoop_result_append l seen r n
  rw [ht, List.map_append]
  exact List.mem_append_left _ hk

/-- If the accumulated keys are distinct and all of them are registered in the
seen set, the loop keeps them distinct: a record is appended only when its key
is absent from the seen set, hence from the accumulated keys. -/
lemma mergeLoop_nodup : ∀ (l : List Recommendation) (seen : List String)
    (r : List Testimonial) (n : Nat),
    (r.map testKey).Nodup → (∀ t ∈ r, testKey t ∈ seen) →
    ((mergeLoop seen r n l).1.map testKey).Nodup := by
  intro l
  induction l with
  | nil => intro seen r n h1 _; simpa [mergeLoop_nil] using h1
  | cons rec rest ih =>
    intro seen r n h1 h2
    by_cases h : dedupeKey rec.name rec.company ∈ seen
    · rw [mergeLoop_cons_mem _ _ _ h]; exact ih seen r n h1 h2
    · rw [mergeLoop_cons_not_mem _ _ _ h]
      apply ih
      · rw [List.map_append]
        rw [List.nodup_append]
        refine ⟨h1, List.nodup_singleton _, ?_⟩
        intro k hk hk'
        simp only [List.map_cons, List.map_nil, List.mem_singleton] at hk'
        obtain ⟨u, hu, hku⟩ := List.mem_map.mp hk
        subst hk'
        apply h
        have hus : testKey u ∈ seen := h2 u hu
        rw [hku] at hus
        simpa [testKey, toStored] using hus
      · intro t ht
        rcases List.mem_append.mp ht with h' | h'
        · exact List.mem_cons_of_mem _ (h2 t h')
        · simp only [List.mem_singleton] at h'
          subst h'
          simp [testKey, toStored]

/-- Every key of every incoming record ends up among the keys of the loop's
output, provided the seen set starts out covered by the accumulated keys. -/
lemma mergeLoop_keys_covered : ∀ (l : List Recommendation) (seen : List String)
    (r : List Testimonial) (n : Nat),
    (∀ k ∈ seen, k ∈ r.map testKey) →
    ∀ rec ∈ l, dedupeKey rec.name rec.company ∈ (mergeLoop seen r n l).1.map testKey := by
  intro l
  induction l with
  | nil => intro seen r n _ rec hrec; exact absurd hrec (List.not_mem_nil _)
  | cons rc rest ih =>
    intro seen r n hsub rec hrec
    by_cases h : dedupeKey rc.name rc.company ∈ seen
    · rw [mergeLoop_cons_mem _ _ _ h]
      rcases List.mem_cons.mp hrec with h' | h'
      · subst h'
        exact mergeLoop_key_mono _ _ _ _ _ (hsub _ h)
      · exact ih seen r n hsub rec h'
    · rw [mergeLoop_cons_not_mem _ _ _ h]
      have hsub' : ∀ k ∈ dedupeKey rc.name rc.company :: seen,
          k ∈ (r ++ [toStored rc]).map testKey := by
        intro k hk
        rcases List.mem_cons.mp hk with h' | h'
        · subst h'
          simp [testKey, toStored]
        · rw [List.map_append]
          exact List.mem_append_left _ (hsub _ h')
      rcases List.mem_cons.mp hrec with h' | h'
      · subst h'
        exact mergeLoop_key_mono _ _ _ _ _ (hsub' _ (List.mem_cons_self _ _))
      · exact ih _ _ _ hsub' rec h'

/-- When every incoming key is already in the seen set, the loop adds nothing. -/
lemma mergeLoop_count_const : ∀ (l : List Recommendation) (seen : List String)
    (r : List Testimonial) (n : Nat),
    (∀ rec ∈ l, dedupeKey rec.name rec.company ∈ seen) →
    (mergeLoop seen r n l).2 = n := by
  intro l
  induction l with
  | nil => intro seen r n _; simp [mergeLoop_nil]
  | cons rec rest ih =>
    intro seen r n h
    rw [mergeLoop_cons_mem _ _ _ (h rec (List.mem_cons_self _ _))]
    exact ih seen r n (fun x hx => h x (List.mem_cons_of_mem _ hx))

lemma forceLoop_spec : ∀ (l : List Recommendation) (i : Nat)
    (merged : List Testimonial) (idxs : List Nat),
    forceLoop i merged idxs l = (merged ++ l.map toStoredForce, idxs ++ List.range' i l.length) := by
  intro l
  induction l with
  | nil => intro i merged idxs; simp [forceLoop]
  | cons rec rest ih =>
    intro i merged idxs
    rw [forceLoop, ih]
    simp [List.range', List.append_assoc]

/-- C3: for every existing collection E and every incoming list I, the length
of the merged result of `Merge E I` equals the length of E plus the reported
number of newly added records. -/
theorem merge_length_invariant (E : List Testimonial) (I : List Recommendation) :
    (Merge E I).1.length = E.length + (Merge E I).2 := by
  have h := mergeLoop_length I (E.map testKey) E 0
  simpa [Merge] using h

/-- C4: the first `E.length` elements of the merged result of `Merge E I` are
exactly E, in the same order with the same values (the Go code copies the
existing slice into a fresh result slice and only ever appends, so the input
sequences are not written to; in this functional model the inputs are
immutable by construction). -/
theorem merge_prefix_preservation (E : List Testimonial) (I : List Recommendation) :
    (Merge E I).1.take E.length = E := by
  obtain ⟨t, ht⟩ := mergeLoop_result_append I (E.map testKey) E 0
  show (mergeLoop (E.map testKey) E 0 I).1.take E.length = E
  rw [ht]
  exact List.take_left E t

/-- C5: Merge is idempotent; rerunning `Merge` on the merged result with the
same incoming list reports zero newly added records. -/
theorem merge_idempotent (E : List Testimonial) (I : List Recommendation) :
    (Merge (Merge E I).1 I).2 = 0 := by
  show (mergeLoop ((Merge E I).1.map testKey) (Merge E I).1 0 I).2 = 0
  exact mergeLoop_count_const I _ _ 0
    (fun rec hrec => mergeLoop_keys_covered I (E.map testKey) E 0
      (fun _ hk => hk) rec hrec)

/-- C1 (counterexample): the uniqueness claim quantifies over every existing
collection, but `Merge` copies the existing records verbatim, so an existing
collection that already repeats an identity key yields a merged result with a
duplicated key. -/
theorem merge_unique_keys_cex :
    ¬ ((Merge [tJane, tJane] []).1.Pairwise (fun a b => testKey a ≠ testKey b)) := by
  decide

/-- C1 (amended): whenever the existing collection has pairwise-distinct
identity keys, so does the merged result of `Merge`: the engine never appends
a record whose key is already present. -/
theorem merge_unique_keys_of_nodup (E : List Testimonial) (I : List Recommendation)
    (h : E.Pairwise (fun a b => testKey a ≠ testKey b)) :
    (Merge E I).1.Pairwise (fun a b => testKey a ≠ testKey b) := by
  have h1 : (E.map testKey).Nodup := List.pairwise_map.mpr h
  have h2 := mergeLoop_nodup I (E.map testKey) E 0 h1
    (fun t ht => List.mem_map_of_mem _ ht)
  exact List.pairwise_map.mp h2

/-- C1 (witness): concrete instance of the amended uniqueness theorem. -/
theorem merge_unique_keys_of_nodup_witness :
    ([tJane].Pairwise (fun a b => testKey a ≠ testKey b)) ∧
    (Merge [tJane] [recBob]).1.Pairwise (fun a b => testKey a ≠ testKey b) :=
  ⟨by decide, merge_unique_keys_of_nodup [tJane] [recBob] (by decide)⟩

/-- C6: the dedup key function is a pure total function of its two arguments,
it is invariant under surrounding whitespace and letter case (any two inputs
equal after trimming and lowercasing yield identical keys), and in particular
key("Jane Doe","Acme") equals key(" jane doe ", "ACME"). -/
theorem dedupeKey_normalization :
    (∀ n1 c1 n2 c2 : String,
        goToLower (goTrimSpace n1) = goToLower (goTrimSpace n2) →
        goToLower (goTrimSpace c1) = goToLower (goTrimSpace c2) →
        dedupeKey n1 c1 = dedupeKey n2 c2) ∧
    dedupeKey "Jane Doe" "Acme" = dedupeKey " jane doe " "ACME" := by
  constructor
  · intro n1 c1 n2 c2 h1 h2
    simp [dedupeKey, h1, h2]
  · decide

/-- C6 (witness): concrete instance of the normalization congruence. -/
theorem dedupeKey_normalization_witness :
    goToLower (goTrimSpace "AB") = goToLower (goTrimSpace " ab ") ∧
    goToLower (goTrimSpace "C") = goToLower (goTrimSpace "c") ∧
    dedupeKey "AB" "C" = dedupeKey " ab " "c" :=
  ⟨by decide, by decide,
    dedupeKey_normalization.1 "AB" "C" " ab " "c" (by decide) (by decide)⟩

/-- C7: intra-batch self-dedup is first-occurrence-wins; for an empty
existing collection and two incoming records with equal identity keys, the
merged result is exactly the stored form of the first record (its payload,
the quote, survives) and exactly one newly added record is reported - the
later record is skipped. -/
theorem merge_first_occurrence_wins (r1 r2 : Recommendation)
    (h : recKey r1 = recKey r2) :
    Merge [] [r1, r2] = ([toStored r1], 1) := by
  show mergeLoop (([] : List Testimonial).map testKey) [] 0 [r1, r2]
    = ([toStored r1], 1)
  rw [List.map_nil, mergeLoop_cons_not_mem _ _ _ (List.not_mem_nil _)]
  have h2 : dedupeKey r2.name r2.company ∈ [dedupeKey r1.name r1.company] := by
    rw [show dedupeKey r2.name r2.company = dedupeKey r1.name r1.company from h.symm]
    exact List.mem_singleton_self _
  rw [mergeLoop_cons_mem _ _ _ h2, mergeLoop_nil]
  simp

/-- C7 (witness): concrete instance with two same-key records carrying
different quotes. -/
theorem merge_first_occurrence_wins_witness :
    recKey recX1 = recKey recX2 ∧
    Merge [] [recX1, recX2] = ([toStored recX1], 1) :=
  ⟨by decide, merge_first_occurrence_wins recX1 recX2 (by decide)⟩

/-- C8: the testimonial `Merge` appends for a scraped record carries over
name, role, company, quote and avatar URL but has an empty LinkedInURL,
whereas the force-mode conversion of the orchestrator carries the
LinkedInURL over. -/
theorem merge_drops_linkedin_url (rec : Recommendation) :
    (Merge [] [rec]).1
      = [Testimonial.mk rec.name rec.role rec.company rec.quote rec.avatarURL ""] ∧
    (forceReplace [rec]).1
      = [Testimonial.mk rec.name rec.role rec.company rec.quote rec.avatarURL
          rec.linkedInURL] := by
  constructor
  · show (mergeLoop [] [] 0 [rec]).1 = _
    rw [mergeLoop_cons_not_mem _ _ _ (List.not_mem_nil _), mergeLoop_nil]
    simp [toStored]
  · rw [forceReplace, forceLoop_spec]
    simp [toStoredForce]

/-- C9: the dedup key function is not injective beyond case/whitespace
equivalence; a pipe inside a field shifts the boundary, so ("a|b", "c") and
("a", "b|c") collide although their trimmed lowercased names differ. -/
theorem dedupeKey_pipe_collision :
    dedupeKey "a|b" "c" = dedupeKey "a" "b|c" ∧
    goToLower (goTrimSpace "a|b") ≠ goToLower (goTrimSpace "a") := by
  decide

/-- C2 (counterexample): the force branch performs no key lookup, so two
incoming records sharing an identity key both survive into the rebuilt
collection - intra-batch self-dedup is not applied in force mode. -/
theorem forceReplace_dedup_cex :
    ¬ ((forceReplace [recX1, recX2]).1.Pairwise
        (fun a b => testKey a ≠ testKey b)) := by
  decide

/-- C2 (amended): in force/replace mode no intra-batch dedup is applied: the
rebuilt collection is exactly the converted incoming list (records with
duplicate identity keys all survive, in order), and every surviving record is
marked newly added - the newly-added index list is every index of the result
in order. -/
theorem forceReplace_no_dedup (scraped : List Recommendation) :
    (forceReplace scraped).1 = scraped.map toStoredForce ∧
    (forceReplace scraped).2 = List.range scraped.length := by
  rw [forceReplace, forceLoop_spec]
  simp [List.range_eq_range']

/-- C10: the rebuilt build-log list contains every fetched entry whose service
differs from "linkedin-contentful-sync", carries at most three entries for
that service, consists of the other entries followed by at most two of the
most recent prior own entries (a suffix of the fetched own entries) followed
by the new entry, and its last element is the new entry. -/
theorem rebuildBuildLog_spec (entries : List BuildLogEntry) (e : BuildLogEntry) :
    (∀ x ∈ entries, x.service ≠ serviceName → x ∈ rebuildBuildLog entries e) ∧
    (rebuildBuildLog entries e).countP (fun x => x.service == serviceName) ≤ 3 ∧
    (∃ kept, kept.length ≤ 2 ∧
      kept <:+ entries.filter (fun x => x.service == serviceName) ∧
      rebuildBuildLog entries e =
        entries.filter (fun x => !(x.service == serviceName)) ++ (kept ++ [e])) ∧
    (rebuildBuildLog entries e).getLast? = some e := by
  have hre : rebuildBuildLog entries e =
      entries.filter (fun x => !(x.service == serviceName)) ++
        ((if (entries.filter (fun x => x.service == serviceName)).length ≥ 3 then
            (entries.filter (fun x => x.service == serviceName)).drop
              ((entries.filter (fun x => x.service == serviceName)).length - 2)
          else entries.filter (fun x => x.service == serviceName)) ++ [e]) := rfl
  have hkl : (if (entries.filter (fun x => x.service == serviceName)).length ≥ 3 then
        (entries.filter (fun x => x.service == serviceName)).drop
          ((entries.filter (fun x => x.service == serviceName)).length - 2)
      else entries.filter (fun x => x.service == serviceName)).length ≤ 2 := by
    by_cases h3 : (entries.filter (fun x => x.service == serviceName)).length ≥ 3
    · rw [if_pos h3, List.length_drop]; omega
    · rw [if_neg h3]; omega
  refine ⟨?_, ?_, ?_, ?_⟩
  · intro x hx hne
    rw [hre]
    exact List.mem_append_left _ (List.mem_filter.mpr ⟨hx, by simpa using hne⟩)
  · rw [hre, List.countP_append, List.countP_append]
    have hother : (entries.filter (fun x => !(x.service == serviceName))).countP
        (fun x => x.service == serviceName) = 0 := by
      rw [List.countP_eq_zero]
      intro a ha
      simpa using (List.mem_filter.mp ha).2
    have hkc := le_trans
      (List.countP_le_length (fun x => x.service == serviceName)) hkl
    have hec : List.countP (fun x => x.service == serviceName) [e] ≤ 1 :=
      List.countP_le_length _
    omega
  · refine ⟨_, hkl, ?_, hre⟩
    by_cases h3 : (entries.filter (fun x => x.service == serviceName)).length ≥ 3
    · rw [if_pos h3]; exact List.drop_suffix _ _
    · rw [if_neg h3]
  · rw [hre, ← List.append_assoc]
    exact List.getLast?_concat _

/-- C10 (witness): concrete instance of the build-log rebuild property. -/
theorem rebuildBuildLog_spec_witness :
    logOther ∈ rebuildBuildLog [logOther, logOwn] logNew :=
  (rebuildBuildLog_spec [logOther, logOwn] logNew).1 logOther (by decide)
    (by decide)
